import Mathlib

/-!
Shallow embedding of the `term_grid` layout engine (`src/lib.rs`) and proofs
about it: the cell/options model, the dimension solver (`fit_into_columns`,
`fit_into_width` with its `theoretical_max_num_lines` bound and descending
search over row counts), and the renderer (`Display::fmt`).

Machine integers (`usize`) are modelled as `Nat`; every subtraction the code
performs is either shown to be guarded (so `Nat` truncated subtraction agrees
with the machine value) or is the object of a claim.  Rust operations that can
abort (division by zero inside `div_ceil`) are modelled with `Option`, `none`
standing for the abort.
-/

namespace TermGrid

/-- A cell: a string plus its pre-computed display width (`Cell` in the source;
the fields are public there, so callers may supply any width). -/
structure Cell where
  contents : String
  width : Nat
deriving DecidableEq

instance : Inhabited Cell := ⟨⟨"", 0⟩⟩

/-- Modelled from the spec: the Width Oracle (the external `unicode_width`
collaborator) restricted to plain ASCII strings, where the monospace display
width of a string equals its character count.  Only used to build concrete
cells and separators in witnesses and scenarios; all general theorems quantify
over an arbitrary oracle `uw : String → Nat`. -/
def uwAscii (s : String) : Nat := s.length

/-- `Direction` from the source. -/
inductive Direction where
  | LeftToRight
  | TopToBottom
deriving DecidableEq

/-- `Filling` from the source. -/
inductive Filling where
  | Spaces (n : Nat)
  | Text (s : String)
deriving DecidableEq

/-- `Filling::width`: spaces report their count, text is measured by the
Width Oracle `uw`. -/
def Filling.width (uw : String → Nat) : Filling → Nat
  | .Spaces w => w
  | .Text t => uw t

/-- `GridOptions` from the source (`tab_size` is an `i32`). -/
structure GridOptions where
  direction : Direction
  filling : Filling
  tab_size : Int
deriving DecidableEq

/-- `Dimensions` from the source: resolved row count and per-column widths. -/
structure Dimensions where
  num_lines : Nat
  widths : List Nat
deriving DecidableEq

/-- `Dimensions::total_width` from the source. -/
def Dimensions.total_width (d : Dimensions) (separator_width : Nat) : Nat :=
  if d.widths.isEmpty then 0
  else d.widths.sum + separator_width * (d.widths.length - 1)

/-- `Grid` from the source: options, cells, and the aggregate statistics
maintained by `add`. -/
structure Grid where
  options : GridOptions
  cells : List Cell
  widest_cell_length : Nat
  width_sum : Nat
  cell_count : Nat

/-- `Grid::new`. -/
def Grid.new (options : GridOptions) : Grid :=
  ⟨options, [], 0, 0, 0⟩

/-- `Grid::add`: push a cell and update the running statistics. -/
def Grid.add (g : Grid) (cell : Cell) : Grid :=
  { g with
    widest_cell_length :=
      if cell.width > g.widest_cell_length then cell.width else g.widest_cell_length
    width_sum := g.width_sum + cell.width
    cell_count := g.cell_count + 1
    cells := g.cells ++ [cell] }

/-- A grid built through the public API: `Grid::new` followed by `add` for
each cell in order. -/
def gridOf (options : GridOptions) (cells : List Cell) : Grid :=
  cells.foldl Grid.add (Grid.new options)

/-- The body of the source's `div_ceil` (`d = lhs / rhs; r = lhs % rhs;
if r > 0 && rhs > 0 { d + 1 } else { d }`), total over `Nat`.  It is only a
faithful model of the source at `rhs > 0`: for `rhs = 0` the Rust division
aborts, which `divCeil?` models. -/
def divCeilRaw (lhs rhs : Nat) : Nat :=
  let d := lhs / rhs
  let r := lhs % rhs
  if r > 0 && rhs > 0 then d + 1 else d

/-- `div_ceil` from the source with the abort made explicit: `lhs / rhs` with
`rhs = 0` aborts the process in Rust, modelled as `none`. -/
def divCeil? (lhs rhs : Nat) : Option Nat :=
  if rhs = 0 then none else some (divCeilRaw lhs rhs)

/-- The column a cell at linear `index` is assigned to in
`Grid::column_widths`: row-major takes `index % num_columns`, column-major
takes `index / num_lines`. -/
def colIndex (dir : Direction) (num_lines num_columns index : Nat) : Nat :=
  match dir with
  | .LeftToRight => index % num_columns
  | .TopToBottom => index / num_lines

/-- One iteration of the `Grid::column_widths` loop: bump the assigned
column's width if this cell is wider.  (The source indexes `widths[index]`;
at every reachable call site the index is in bounds, so `getD`/`set` agree
with the machine behaviour.) -/
def colStep (dir : Direction) (num_lines num_columns : Nat)
    (widths : List Nat) (p : Nat × Cell) : List Nat :=
  let j := colIndex dir num_lines num_columns p.1
  if p.2.width > widths.getD j 0 then widths.set j p.2.width else widths

/-- `Grid::column_widths`: fold the enumerated cells over a zero-initialised
width vector of length `num_columns`. -/
def columnWidths (g : Grid) (num_lines num_columns : Nat) : Dimensions :=
  ⟨num_lines,
   g.cells.enum.foldl (colStep g.options.direction num_lines num_columns)
     (List.replicate num_columns 0)⟩

/-- `Grid::columns_dimensions`: `num_lines = div_ceil(cells.len(), num_columns)`
(which aborts when `num_columns = 0`), then `column_widths`. -/
def columnsDimensions (g : Grid) (num_columns : Nat) : Option Dimensions :=
  match divCeil? g.cells.length num_columns with
  | none => none
  | some num_lines => some (columnWidths g num_lines num_columns)

/-- `Grid::fit_into_columns` (the `Display` wrapper only pairs the grid with
these dimensions). -/
def fitIntoColumns (g : Grid) (num_columns : Nat) : Option Dimensions :=
  columnsDimensions g num_columns

/-- The source sorts the width list descending with
`sort_unstable_by(|a, b| b.cmp(a))`; on `Nat` keys every descending sort
produces the same list, here insertion sort. -/
def sortDesc (l : List Nat) : List Nat :=
  List.insertionSort (fun a b => a ≥ b) l

/-- The loop of `Grid::theoretical_max_num_lines` over the descending width
list, carrying the enumeration index `i` and `col_total_width_so_far`;
on the first width that no longer fits it returns `div_ceil(cell_count, i)`
(which aborts when `i = 0`; unreachable from `width_dimensions`, whose widest
cell already fits, making the first check succeed), and `1` if every cell was
absorbed. -/
def tmnlGo (sep_w maximum_width cell_count : Nat) :
    List Nat → Nat → Nat → Option Nat
  | [], _, _ => some 1
  | w :: ws, i, so_far =>
    if w + so_far ≤ maximum_width then
      tmnlGo sep_w maximum_width cell_count ws (i + 1) (so_far + (sep_w + w))
    else
      divCeil? cell_count i

/-- `Grid::theoretical_max_num_lines`. -/
def theoreticalMaxNumLines (uw : String → Nat) (g : Grid) (maximum_width : Nat) :
    Option Nat :=
  tmnlGo (g.options.filling.width uw) maximum_width g.cell_count
    (sortDesc (g.cells.map Cell.width)) 0 0

/-- `num_columns = div_ceil(cell_count, num_lines)` for a candidate row count
in the `width_dimensions` search (the candidate is positive there, so the
total `divCeilRaw` is the machine value). -/
def candNumCols (g : Grid) (num_lines : Nat) : Nat :=
  divCeilRaw g.cell_count num_lines

/-- `total_separator_width = (num_columns - 1) * filling.width()` for a
candidate row count. -/
def candSepWidth (uw : String → Nat) (g : Grid) (num_lines : Nat) : Nat :=
  (candNumCols g num_lines - 1) * g.options.filling.width uw

/-- The `potential_dimensions` computed for a candidate row count. -/
def candDims (g : Grid) (num_lines : Nat) : Dimensions :=
  columnWidths g num_lines (candNumCols g num_lines)

/-- The fit check of the `width_dimensions` search for candidate row count
`num_lines`: the separator guard passes and the summed column widths are
strictly below the remaining budget. -/
def passesFitCheck (uw : String → Nat) (g : Grid) (maximum_width num_lines : Nat) :
    Prop :=
  ¬ maximum_width < candSepWidth uw g num_lines ∧
    (candDims g num_lines).widths.sum < maximum_width - candSepWidth uw g num_lines

instance (uw : String → Nat) (g : Grid) (w L : Nat) :
    Decidable (passesFitCheck uw g w L) := by
  unfold passesFitCheck
  infer_instance

/-- The `for num_lines in (1..=theoretical_max_num_lines).rev()` loop of
`Grid::width_dimensions`, descending from the first argument to 1, threading
`smallest_dimensions_yet`.  Skipped candidates (`continue`) leave the best
untouched; a failed fit check returns the best; falling off the loop end
returns `None` exactly as the source does. -/
def widthLoop (uw : String → Nat) (g : Grid) (maximum_width : Nat) :
    Nat → Option Dimensions → Option Dimensions
  | 0, _ => none
  | num_lines + 1, best =>
    if maximum_width < candSepWidth uw g (num_lines + 1) then
      widthLoop uw g maximum_width num_lines best
    else if (candDims g (num_lines + 1)).widths.sum
        < maximum_width - candSepWidth uw g (num_lines + 1) then
      widthLoop uw g maximum_width num_lines (some (candDims g (num_lines + 1)))
    else best

/-- `Grid::width_dimensions`.  The `none` arm of the match models the abort
inside `theoretical_max_num_lines`; it is unreachable here because the widest
cell already fits, so the bound's first iteration cannot fail at index 0. -/
def widthDimensions (uw : String → Nat) (g : Grid) (maximum_width : Nat) :
    Option Dimensions :=
  if g.widest_cell_length > maximum_width then none
  else if g.cell_count = 0 then some ⟨0, []⟩
  else if g.cell_count = 1 then some ⟨1, [(g.cells.getD 0 default).width]⟩
  else
    match theoreticalMaxNumLines uw g maximum_width with
    | none => none
    | some t =>
      if t = 1 then some ⟨1, g.cells.map Cell.width⟩
      else widthLoop uw g maximum_width t none

/-- `Grid::fit_into_width` (the `Display` wrapper only pairs the grid with the
solved dimensions). -/
def fitIntoWidth (uw : String → Nat) (g : Grid) (maximum_width : Nat) :
    Option Dimensions :=
  widthDimensions uw g maximum_width

/-- The separator string derived once at the top of `Display::fmt`: for
`Spaces(n)` with `tab_size <= 0` it is `n` spaces, with `tab_size > 0` it is
`n / tab_size` tabs followed by `n % tab_size` spaces; a `Text` filling is
used verbatim. -/
def sepStringOf (o : GridOptions) : String :=
  match o.filling with
  | .Spaces n =>
    if o.tab_size ≤ 0 then String.mk (List.replicate n ' ')
    else
      String.mk (List.replicate (n / o.tab_size.toNat) '\t' ++
        List.replicate (n % o.tab_size.toNat) ' ')
  | .Text s => s

/-- The alignment padding written for a cell: the source slices
`padding[0..padding_size]` out of a buffer of `widest_cell_length` spaces, so
the written text is `padding_size` spaces (the slice is in bounds because
every resolved column width is at most `widest_cell_length`). -/
def padString (k : Nat) : String :=
  String.mk (List.replicate k ' ')

/-- The linear cell index `num` computed in the `Display::fmt` loops:
row-major `y * widths.len() + x`, column-major `y + num_lines * x`. -/
def renderIndex (dir : Direction) (num_lines num_columns y x : Nat) : Nat :=
  match dir with
  | .LeftToRight => y * num_columns + x
  | .TopToBottom => y + num_lines * x

/-- What one `(y, x)` iteration of `Display::fmt` writes: nothing when the
linear index is past the cells (`continue`), the bare contents in the final
column, and contents + padding + separator otherwise.  (The source skips
`write_str` for empty padding; writing the empty string is the same.) -/
def renderEntry (g : Grid) (d : Dimensions) (sep : String) (y x : Nat) : String :=
  let num := renderIndex g.options.direction d.num_lines d.widths.length y x
  if g.cells.length ≤ num then ""
  else
    let cell := g.cells.getD num default
    let col_width := d.widths.getD x 0
    let padding_size := col_width - cell.width
    if x = d.widths.length - 1 then cell.contents
    else cell.contents ++ padString padding_size ++ sep

/-- Sequential concatenation of the strings written by consecutive
`write_str` calls. -/
def concatAll : List String → String
  | [] => ""
  | s :: rest => s ++ concatAll rest

/-- One line of `Display::fmt` output: the entries for `x` in
`0..widths.len()` followed by a newline. -/
def renderRow (g : Grid) (d : Dimensions) (sep : String) (y : Nat) : String :=
  concatAll ((List.range d.widths.length).map (renderEntry g d sep y)) ++
    String.mk ['\n']

/-- The full `Display::fmt` output for a grid with solved dimensions. -/
def renderDisplay (g : Grid) (d : Dimensions) : String :=
  concatAll ((List.range d.num_lines).map (renderRow g d (sepStringOf g.options)))

/-- `grid.fit_into_width(w)` followed by rendering the returned `Display`. -/
def renderFitWidth (uw : String → Nat) (g : Grid) (maximum_width : Nat) :
    Option String :=
  (fitIntoWidth uw g maximum_width).map (renderDisplay g)

/-- `grid.fit_into_columns(c)` followed by rendering the returned `Display`. -/
def renderFitColumns (g : Grid) (num_columns : Nat) : Option String :=
  (fitIntoColumns g num_columns).map (renderDisplay g)

/-! ### Concrete inputs used by scenarios, counterexamples and witnesses -/

/-- Options of the documented example: one space of separator, row-major,
tab size 8. -/
def opts7 : GridOptions := ⟨Direction.LeftToRight, Filling.Spaces 1, 8⟩

/-- The twelve cells of the documented example, with their ASCII widths. -/
def cells12 : List Cell :=
  [⟨"one", 3⟩, ⟨"two", 3⟩, ⟨"three", 5⟩, ⟨"four", 4⟩, ⟨"five", 4⟩, ⟨"six", 3⟩,
   ⟨"seven", 5⟩, ⟨"eight", 5⟩, ⟨"nine", 4⟩, ⟨"ten", 3⟩, ⟨"eleven", 6⟩,
   ⟨"twelve", 6⟩]

/-- Options with a 100-wide space separator (the repository's
`huge_separator` test). -/
def optsHuge : GridOptions := ⟨Direction.LeftToRight, Filling.Spaces 100, 8⟩

/-- The two one-character cells of the `huge_separator` test. -/
def cellsAB : List Cell := [⟨"a", 1⟩, ⟨"b", 1⟩]

/-- A single three-character cell. -/
def cellsAbc : List Cell := [⟨"abc", 3⟩]

/-- Three cells that leave the bottom-right grid position unfilled when laid
out in two columns. -/
def cellsRagged : List Cell := [⟨"aa", 2⟩, ⟨"b", 1⟩, ⟨"c", 1⟩]

/-! ### Invariants of grids built through the public API -/

theorem foldl_add_cells (cs : List Cell) (g : Grid) :
    (cs.foldl Grid.add g).cells = g.cells ++ cs := by
  induction cs generalizing g with
  | nil => simp
  | cons c cs ih => simp [ih, Grid.add]

theorem gridOf_cells (o : GridOptions) (cs : List Cell) :
    (gridOf o cs).cells = cs := by
  simp [gridOf, foldl_add_cells, Grid.new]

theorem foldl_add_options (cs : List Cell) (g : Grid) :
    (cs.foldl Grid.add g).options = g.options := by
  induction cs generalizing g with
  | nil => rfl
  | cons c cs ih => simp [ih, Grid.add]

theorem gridOf_options (o : GridOptions) (cs : List Cell) :
    (gridOf o cs).options = o := by
  simp [gridOf, foldl_add_options, Grid.new]

theorem foldl_add_count (cs : List Cell) (g : Grid) :
    (cs.foldl Grid.add g).cell_count = g.cell_count + cs.length := by
  induction cs generalizing g with
  | nil => simp
  | cons c cs ih => simp [ih, Grid.add]; omega

theorem gridOf_count (o : GridOptions) (cs : List Cell) :
    (gridOf o cs).cell_count = cs.length := by
  simp [gridOf, foldl_add_count, Grid.new]

theorem add_le_widest (g : Grid) (c : Cell) :
    c.width ≤ (g.add c).widest_cell_length := by
  simp only [Grid.add]
  split <;> omega

theorem add_widest_mono (g : Grid) (c : Cell) :
    g.widest_cell_length ≤ (g.add c).widest_cell_length := by
  simp only [Grid.add]
  split <;> omega

theorem foldl_add_widest_mono (cs : List Cell) (g : Grid) :
    g.widest_cell_length ≤ (cs.foldl Grid.add g).widest_cell_length := by
  induction cs generalizing g with
  | nil => exact le_refl _
  | cons c cs ih => exact le_trans (add_widest_mono g c) (ih (g.add c))

theorem mem_width_le_foldl_widest (cs : List Cell) (g : Grid) (c : Cell)
    (hc : c ∈ cs) : c.width ≤ (cs.foldl Grid.add g).widest_cell_length := by
  induction cs generalizing g with
  | nil => cases hc
  | cons c₀ cs ih =>
    rcases List.mem_cons.mp hc with h | h
    · subst h
      exact le_trans (add_le_widest g c) (foldl_add_widest_mono cs (g.add c))
    · exact ih (g.add c₀) h

theorem mem_width_le_widest (o : GridOptions) (cs : List Cell) (c : Cell)
    (hc : c ∈ cs) : c.width ≤ (gridOf o cs).widest_cell_length :=
  mem_width_le_foldl_widest cs (Grid.new o) c hc

theorem getD_mem_of_lt {α : Type} [Inhabited α] (l : List α) (n : Nat)
    (h : n < l.length) : l.getD n default ∈ l := by
  rw [List.getD_eq_getElem?_getD, List.getElem?_eq_getElem h]
  exact List.getElem_mem h

theorem getD_set_self (l : List Nat) (i v : Nat) (h : i < l.length) :
    (l.set i v).getD i 0 = v := by
  rw [List.getD_eq_getElem?_getD, List.getElem?_set_self h]
  rfl

theorem getD_set_ne (l : List Nat) (i j v : Nat) (h : i ≠ j) :
    (l.set i v).getD j 0 = l.getD j 0 := by
  rw [List.getD_eq_getElem?_getD, List.getElem?_set_ne h, ← List.getD_eq_getElem?_getD]

theorem getD_map_width (l : List Cell) (x : Nat) (h : x < l.length) :
    (l.map Cell.width).getD x 0 = (l.getD x default).width := by
  simp [List.getD_eq_getElem?_getD, List.getElem?_eq_getElem h]

/-! ### The `column_widths` fold -/

theorem colStep_length (dir : Direction) (nl nc : Nat) (ws : List Nat)
    (p : Nat × Cell) : (colStep dir nl nc ws p).length = ws.length := by
  simp only [colStep]
  split
  · exact List.length_set ws _ _
  · rfl

theorem foldl_colStep_length (dir : Direction) (nl nc : Nat)
    (ps : List (Nat × Cell)) (ws : List Nat) :
    (ps.foldl (colStep dir nl nc) ws).length = ws.length := by
  induction ps generalizing ws with
  | nil => rfl
  | cons p ps ih => rw [List.foldl_cons, ih, colStep_length]

theorem colStep_getD_le (dir : Direction) (nl nc : Nat) (ws : List Nat)
    (p : Nat × Cell) (j : Nat) :
    ws.getD j 0 ≤ (colStep dir nl nc ws p).getD j 0 := by
  simp only [colStep]
  split
  case isTrue h =>
    by_cases hk : colIndex dir nl nc p.1 < ws.length
    · by_cases hjk : colIndex dir nl nc p.1 = j
      · subst hjk
        rw [getD_set_self _ _ _ hk]
        exact le_of_lt h
      · rw [getD_set_ne _ _ _ _ hjk]
    · rw [List.set_eq_of_length_le (le_of_not_lt hk)]
  case isFalse h => exact le_refl _

theorem foldl_colStep_getD_le (dir : Direction) (nl nc : Nat)
    (ps : List (Nat × Cell)) (ws : List Nat) (j : Nat) :
    ws.getD j 0 ≤ (ps.foldl (colStep dir nl nc) ws).getD j 0 := by
  induction ps generalizing ws with
  | nil => exact le_refl _
  | cons p ps ih =>
    exact le_trans (colStep_getD_le dir nl nc ws p j) (ih (colStep dir nl nc ws p))

theorem foldl_colStep_dominates (dir : Direction) (nl nc : Nat)
    (ps : List (Nat × Cell)) (ws : List Nat) (i : Nat) (c : Cell)
    (hmem : (i, c) ∈ ps) (hj : colIndex dir nl nc i < ws.length) :
    c.width ≤ (ps.foldl (colStep dir nl nc) ws).getD (colIndex dir nl nc i) 0 := by
  induction ps generalizing ws with
  | nil => cases hmem
  | cons p ps ih =>
    rcases List.mem_cons.mp hmem with h | h
    · subst h
      have step : c.width ≤ (colStep dir nl nc ws (i, c)).getD (colIndex dir nl nc i) 0 := by
        simp only [colStep]
        split
        case isTrue h =>
          rw [getD_set_self _ _ _ hj]
        case isFalse h => exact le_of_not_lt h
      exact le_trans step (foldl_colStep_getD_le dir nl nc ps _ _)
    · exact ih (colStep dir nl nc ws p) h (by rw [colStep_length]; exact hj)

theorem columnWidths_num_lines (g : Grid) (nl nc : Nat) :
    (columnWidths g nl nc).num_lines = nl := rfl

theorem columnWidths_length (g : Grid) (nl nc : Nat) :
    (columnWidths g nl nc).widths.length = nc := by
  unfold columnWidths
  rw [foldl_colStep_length, List.length_replicate]

theorem columnWidths_dominates (g : Grid) (nl nc : Nat) (i : Nat)
    (hi : i < g.cells.length) (hj : colIndex g.options.direction nl nc i < nc) :
    (g.cells.getD i default).width ≤
      (columnWidths g nl nc).widths.getD (colIndex g.options.direction nl nc i) 0 := by
  have hmem : (i, g.cells.getD i default) ∈ g.cells.enum := by
    rw [List.mem_enum_iff_getElem?]
    rw [List.getD_eq_getElem?_getD, List.getElem?_eq_getElem hi]
    rfl
  exact foldl_colStep_dominates g.options.direction nl nc g.cells.enum
    (List.replicate nc 0) i _ hmem (by rwa [List.length_replicate])

theorem columnWidths_untouched (g : Grid) (nl nc : Nat) (j : Nat)
    (h : ∀ i, i < g.cells.length → colIndex g.options.direction nl nc i ≠ j) :
    (columnWidths g nl nc).widths.getD j 0 = 0 := by
  unfold columnWidths
  have main : ∀ (ps : List (Nat × Cell)) (ws : List Nat),
      (∀ p ∈ ps, colIndex g.options.direction nl nc p.1 ≠ j) →
      (ps.foldl (colStep g.options.direction nl nc) ws).getD j 0 = ws.getD j 0 := by
    intro ps
    induction ps with
    | nil => intro ws _; rfl
    | cons p ps ih =>
      intro ws hps
      rw [List.foldl_cons, ih _ (fun q hq => hps q (List.mem_cons_of_mem p hq))]
      simp only [colStep]
      split
      · exact getD_set_ne _ _ _ _ (hps p (List.mem_cons_self p ps))
      · rfl
  rw [main g.cells.enum (List.replicate nc 0)
    (fun p hp => h p.1 (List.fst_lt_of_mem_enum hp))]
  rw [List.getD_eq_getElem?_getD, List.getElem?_replicate]
  split <;> rfl

/-! ### Render index versus solver column assignment -/

theorem colIndex_renderIndex (dir : Direction) (nl nc y x : Nat)
    (hy : y < nl) (hx : x < nc) :
    colIndex dir nl nc (renderIndex dir nl nc y x) = x := by
  cases dir with
  | LeftToRight =>
    show (y * nc + x) % nc = x
    rw [Nat.mul_comm, Nat.mul_add_mod, Nat.mod_eq_of_lt hx]
  | TopToBottom =>
    show (y + nl * x) / nl = x
    rw [Nat.add_mul_div_left y x (Nat.lt_of_le_of_lt (Nat.zero_le y) hy),
      Nat.div_eq_of_lt hy, Nat.zero_add]

theorem renderIndex_mono (dir : Direction) (nl nc y : Nat) {x x' : Nat}
    (h : x ≤ x') : renderIndex dir nl nc y x ≤ renderIndex dir nl nc y x' := by
  cases dir with
  | LeftToRight => exact Nat.add_le_add_left h _
  | TopToBottom => exact Nat.add_le_add_left (Nat.mul_le_mul_left nl h) y

/-! ### Render safety: every rendered cell fits its resolved column -/

/-- For dimensions `d`, every in-range cell rendered at position `(y, x)` has
width at most the resolved width of column `x`, so the renderer's
`col_width - cell.width` padding subtraction cannot wrap. -/
def RenderSafe (g : Grid) (d : Dimensions) : Prop :=
  ∀ y x, y < d.num_lines → x < d.widths.length →
    renderIndex g.options.direction d.num_lines d.widths.length y x < g.cells.length →
    (g.cells.getD (renderIndex g.options.direction d.num_lines d.widths.length y x)
        default).width ≤ d.widths.getD x 0

theorem renderSafe_columnWidths (g : Grid) (nl nc : Nat) :
    RenderSafe g (columnWidths g nl nc) := by
  intro y x hy hx hnum
  rw [columnWidths_num_lines] at hy hnum
  rw [columnWidths_length] at hx hnum ⊢
  have hcol := colIndex_renderIndex g.options.direction nl nc y x hy hx
  have := columnWidths_dominates g nl nc
    (renderIndex g.options.direction nl nc y x) hnum (by rw [hcol]; exact hx)
  rwa [hcol] at this

theorem renderSafe_empty (g : Grid) : RenderSafe g ⟨0, []⟩ := by
  intro y x hy
  exact absurd hy (Nat.not_lt_zero y)

theorem renderSafe_single (g : Grid) :
    RenderSafe g ⟨1, [(g.cells.getD 0 default).width]⟩ := by
  intro y x hy hx hnum
  have hy0 : y = 0 := Nat.lt_one_iff.mp hy
  have hx0 : x = 0 := Nat.lt_one_iff.mp hx
  subst hy0; subst hx0
  have hnum0 : renderIndex g.options.direction 1 1 0 0 = 0 := by
    cases g.options.direction <;> rfl
  simp only [List.length_cons, List.length_nil] at hnum ⊢
  rw [hnum0]
  exact le_refl _

theorem renderSafe_mapWidths (g : Grid) :
    RenderSafe g ⟨1, g.cells.map Cell.width⟩ := by
  intro y x hy hx hnum
  have hy0 : y = 0 := Nat.lt_one_iff.mp hy
  subst hy0
  have hnum0 : ∀ n, renderIndex g.options.direction 1 n 0 x = x := by
    intro n
    cases g.options.direction with
    | LeftToRight => show 0 * n + x = x; rw [Nat.zero_mul, Nat.zero_add]
    | TopToBottom => show 0 + 1 * x = x; rw [Nat.zero_add, Nat.one_mul]
  simp only [hnum0] at hnum ⊢
  simp only [List.length_map] at hx
  rw [getD_map_width _ _ hx]

/-! ### The descending search loop invariant -/

theorem widthLoop_invariant (uw : String → Nat) (g : Grid) (w : Nat)
    (Q : Dimensions → Prop)
    (hcand : ∀ L, ¬ w < candSepWidth uw g (L + 1) →
      (candDims g (L + 1)).widths.sum < w - candSepWidth uw g (L + 1) →
      Q (candDims g (L + 1))) :
    ∀ (L : Nat) (best : Option Dimensions),
      (∀ d, best = some d → Q d) →
      ∀ d, widthLoop uw g w L best = some d → Q d := by
  intro L
  induction L with
  | zero =>
    intro best hbest d hd
    exact absurd hd (by simp [widthLoop])
  | succ n ih =>
    intro best hbest d hd
    rw [widthLoop] at hd
    split at hd
    · exact ih best hbest d hd
    · split at hd
      case isTrue h1 h2 =>
        refine ih _ (fun d' hd' => ?_) d hd
        cases hd'
        exact hcand n h1 h2
      case isFalse h1 h2 => exact hbest d hd

/-! ### Claim C5 -/

/-- C5: if the cell collection contains a cell strictly wider than the
requested maximum width, `fit_into_width` returns `None` (the
`widest_cell_length > maximum_width` guard fires). -/
theorem claim5_theorem (uw : String → Nat) (o : GridOptions) (cs : List Cell)
    (w : Nat) (h : ∃ c ∈ cs, w < c.width) :
    fitIntoWidth uw (gridOf o cs) w = none := by
  obtain ⟨c, hc, hw⟩ := h
  have hbig : (gridOf o cs).widest_cell_length > w :=
    lt_of_lt_of_le hw (mem_width_le_widest o cs c hc)
  unfold fitIntoWidth widthDimensions
  rw [if_pos hbig]

theorem claim5_witness :
    (∃ c ∈ cellsAbc, 2 < c.width) ∧
      fitIntoWidth uwAscii (gridOf opts7 cellsAbc) 2 = none :=
  ⟨by decide, claim5_theorem uwAscii opts7 cellsAbc 2 (by decide)⟩

/-! ### Claim C9 -/

/-- C9: determinism — both solver entry points and both rendered outputs are
equal across two runs on identical cell sequences and identical options. -/
theorem claim9_theorem (uw : String → Nat) (o₁ o₂ : GridOptions)
    (cs₁ cs₂ : List Cell) (w c : Nat) (hcs : cs₁ = cs₂) (ho : o₁ = o₂) :
    fitIntoWidth uw (gridOf o₁ cs₁) w = fitIntoWidth uw (gridOf o₂ cs₂) w ∧
    fitIntoColumns (gridOf o₁ cs₁) c = fitIntoColumns (gridOf o₂ cs₂) c ∧
    renderFitWidth uw (gridOf o₁ cs₁) w = renderFitWidth uw (gridOf o₂ cs₂) w ∧
    renderFitColumns (gridOf o₁ cs₁) c = renderFitColumns (gridOf o₂ cs₂) c := by
  subst hcs; subst ho
  exact ⟨rfl, rfl, rfl, rfl⟩

theorem claim9_witness :
    fitIntoWidth uwAscii (gridOf opts7 cells12) 24 =
        fitIntoWidth uwAscii (gridOf opts7 cells12) 24 ∧
    fitIntoColumns (gridOf opts7 cells12) 4 =
        fitIntoColumns (gridOf opts7 cells12) 4 ∧
    renderFitWidth uwAscii (gridOf opts7 cells12) 24 =
        renderFitWidth uwAscii (gridOf opts7 cells12) 24 ∧
    renderFitColumns (gridOf opts7 cells12) 4 =
        renderFitColumns (gridOf opts7 cells12) 4 :=
  claim9_theorem uwAscii opts7 opts7 cells12 cells12 24 4 rfl rfl

/-! ### Claim C7 -/

/-- C7: the documented scenario — twelve cells, one-space separator,
row-major, maximum width 24 — yields exactly 3 rows and 4 columns and renders
to exactly the documented text. -/
theorem claim7_theorem :
    fitIntoWidth uwAscii (gridOf opts7 cells12) 24 = some ⟨3, [4, 3, 6, 6]⟩ ∧
    renderFitWidth uwAscii (gridOf opts7 cells12) 24 =
      some ("one  two three  four\nfive six seven  eight\nnine ten eleven twelve\n") := by
  exact ⟨by decide, by decide⟩

/-! ### Claim C2 -/

/-- C2 (code bug): on the cells of the repository's `huge_separator` test —
two cells of width 1, a 100-wide separator, maximum width 99 — the candidate
row count 2 is in the searched range (`theoretical_max_num_lines` is 2) and
passes the fit check, so it is recorded as the current best, yet
`width_dimensions` returns `None`: the descending loop skips `num_lines = 1`
on the separator-overflow guard, falls off the end, and drops the recorded
best. -/
theorem claim2_theorem :
    theoreticalMaxNumLines uwAscii (gridOf optsHuge cellsAB) 99 = some 2 ∧
    passesFitCheck uwAscii (gridOf optsHuge cellsAB) 99 2 ∧
    fitIntoWidth uwAscii (gridOf optsHuge cellsAB) 99 = none := by
  exact ⟨by decide, by decide, by decide⟩

/-! ### Claim C3, counterexample part -/

/-- C3 counterexample: `fit_into_columns(0)` does not succeed — the
`div_ceil(cells.len(), 0)` division by zero aborts (modelled as `none`), so
the request is not total as claimed. -/
theorem claim3_counterexample :
    fitIntoColumns (gridOf opts7 cellsAbc) 0 = none := by
  decide

/-! ### Claim C1, counterexample part -/

/-- C1 counterexample: a single cell of width 3 with maximum width 3 — the
maximum width is at least the widest cell's width and a layout is returned,
but its total rendered width equals 3 and is not strictly below 3. -/
theorem claim1_counterexample :
    (gridOf opts7 cellsAbc).widest_cell_length ≤ 3 ∧
    fitIntoWidth uwAscii (gridOf opts7 cellsAbc) 3 = some ⟨1, [3]⟩ ∧
    ¬ Dimensions.total_width ⟨1, [3]⟩ (Filling.width uwAscii opts7.filling) < 3 := by
  exact ⟨by decide, by decide, by decide⟩


theorem concatAll_append (l₁ l₂ : List String) :
    concatAll (l₁ ++ l₂) = concatAll l₁ ++ concatAll l₂ := by
  induction l₁ with
  | nil => rfl
  | cons a l₁ ih =>
    show a ++ concatAll (l₁ ++ l₂) = a ++ concatAll l₁ ++ concatAll l₂
    rw [ih, String.append_assoc]

theorem concatAll_all_empty (l : List String) (h : ∀ s ∈ l, s = "") :
    concatAll l = "" := by
  induction l with
  | nil => rfl
  | cons a l ih =>
    show a ++ concatAll l = ""
    rw [h a (List.mem_cons_self a l), ih (fun s hs => h s (List.mem_cons_of_mem a hs))]
    rfl

/-! ### Claim C4 -/

/-- C4: no layout/render subtraction wraps.  (1) Every solved layout from
`fit_into_width` is render-safe: each in-range rendered cell's width is at
most its column's resolved width, so `col_width - cell.width` never wraps.
(2) Likewise for `fit_into_columns`.  (3) In the max-width search the budget
subtraction `maximum_width - total_separator_width` happens only behind the
`maximum_width < total_separator_width` guard, under which the `Nat`
(machine) subtraction is exact. -/
theorem claim4_theorem (uw : String → Nat) (o : GridOptions) (cs : List Cell)
    (w c : Nat) :
    (∀ d, fitIntoWidth uw (gridOf o cs) w = some d → RenderSafe (gridOf o cs) d) ∧
    (∀ d, fitIntoColumns (gridOf o cs) c = some d → RenderSafe (gridOf o cs) d) ∧
    (∀ L, ¬ w < candSepWidth uw (gridOf o cs) L →
      (w - candSepWidth uw (gridOf o cs) L) + candSepWidth uw (gridOf o cs) L = w) := by
  refine ⟨?_, ?_, ?_⟩
  · intro d hd
    unfold fitIntoWidth widthDimensions at hd
    split at hd
    · exact absurd hd (by simp)
    · split at hd
      · obtain rfl := Option.some.inj hd
        exact renderSafe_empty _
      · split at hd
        · obtain rfl := Option.some.inj hd
          exact renderSafe_single _
        · split at hd
          · exact absurd hd (by simp)
          · split at hd
            · obtain rfl := Option.some.inj hd
              exact renderSafe_mapWidths _
            · exact widthLoop_invariant uw (gridOf o cs) w
                (RenderSafe (gridOf o cs))
                (fun L _ _ =>
                  renderSafe_columnWidths (gridOf o cs) (L + 1)
                    (candNumCols (gridOf o cs) (L + 1)))
                _ none (fun d h => Option.noConfusion h) d hd
  · intro d hd
    unfold fitIntoColumns columnsDimensions at hd
    split at hd
    · exact absurd hd (by simp)
    · obtain rfl := Option.some.inj hd
      exact renderSafe_columnWidths _ _ _
  · intro L h
    exact Nat.sub_add_cancel (Nat.le_of_not_lt h)

theorem claim4_witness :
    RenderSafe (gridOf opts7 cells12) ⟨3, [4, 3, 6, 6]⟩ ∧
    RenderSafe (gridOf opts7 cells12) ⟨3, [6, 6, 5, 4, 4]⟩ ∧
    (24 - candSepWidth uwAscii (gridOf opts7 cells12) 3) +
      candSepWidth uwAscii (gridOf opts7 cells12) 3 = 24 :=
  ⟨(claim4_theorem uwAscii opts7 cells12 24 5).1 ⟨3, [4, 3, 6, 6]⟩ (by decide),
   (claim4_theorem uwAscii opts7 cells12 24 5).2.1 ⟨3, [6, 6, 5, 4, 4]⟩ (by decide),
   (claim4_theorem uwAscii opts7 cells12 24 5).2.2 3 (by decide)⟩

/-! ### Claim C6 -/

/-- C6: the renderer's linear index at row `y`, column `x` is
`y * columnCount + x` row-major and `y + num_lines * x` column-major, the
solver's column assignment maps that index back to `x` (the two mappings
agree), and when in range the entry written at `(y, x)` starts with exactly
that cell's contents. -/
theorem claim6_theorem (g : Grid) (d : Dimensions) (sep : String) (y x : Nat)
    (hy : y < d.num_lines) (hx : x < d.widths.length) :
    (renderIndex g.options.direction d.num_lines d.widths.length y x =
      match g.options.direction with
      | Direction.LeftToRight => y * d.widths.length + x
      | Direction.TopToBottom => y + d.num_lines * x) ∧
    colIndex g.options.direction d.num_lines d.widths.length
      (renderIndex g.options.direction d.num_lines d.widths.length y x) = x ∧
    (renderIndex g.options.direction d.num_lines d.widths.length y x <
        g.cells.length →
      ∃ rest, renderEntry g d sep y x =
        (g.cells.getD
          (renderIndex g.options.direction d.num_lines d.widths.length y x)
          default).contents ++ rest) := by
  refine ⟨?_, colIndex_renderIndex _ _ _ _ _ hy hx, ?_⟩
  · cases g.options.direction <;> rfl
  · intro hnum
    simp only [renderEntry]
    rw [if_neg (Nat.not_le.mpr hnum)]
    split
    · exact ⟨"", (String.append_empty _).symm⟩
    · exact ⟨padString _ ++ sep, by rw [String.append_assoc]⟩

theorem claim6_witness :
    1 < (3 : Nat) ∧
    colIndex (gridOf opts7 cells12).options.direction 3 4
      (renderIndex (gridOf opts7 cells12).options.direction 3 4 1 2) = 2 :=
  ⟨by decide,
   (claim6_theorem (gridOf opts7 cells12) ⟨3, [4, 3, 6, 6]⟩ (" ") 1 2
     (by decide) (by decide)).2.1⟩

/-! ### Claim C8 -/

/-- C8: tab compression happens once, at separator derivation, and only on
the separator.  For `Spaces(n)` with `tab_size = t > 0` the derived separator
is `n / t` tabs then `n mod t` spaces; a `Text` separator is untouched; every
character of the alignment padding is a space; and a non-final in-range entry
is written as contents, then that all-space padding, then the separator. -/
theorem claim8_theorem (dir : Direction) (n : Nat) (t : Int) (s : String)
    (k : Nat) (ht : 0 < t) :
    sepStringOf ⟨dir, Filling.Spaces n, t⟩ =
      String.mk (List.replicate (n / t.toNat) '\t' ++
        List.replicate (n % t.toNat) ' ') ∧
    sepStringOf ⟨dir, Filling.Text s, t⟩ = s ∧
    (∀ ch ∈ (padString k).data, ch = ' ') ∧
    (∀ (g : Grid) (d : Dimensions) (sp : String) (y x : Nat),
      renderIndex g.options.direction d.num_lines d.widths.length y x <
        g.cells.length →
      x ≠ d.widths.length - 1 →
      renderEntry g d sp y x =
        (g.cells.getD
          (renderIndex g.options.direction d.num_lines d.widths.length y x)
          default).contents ++
        padString (d.widths.getD x 0 -
          (g.cells.getD
            (renderIndex g.options.direction d.num_lines d.widths.length y x)
            default).width) ++ sp) := by
  refine ⟨?_, rfl, ?_, ?_⟩
  · dsimp only [sepStringOf]
    rw [if_neg (not_le.mpr ht)]
  · intro ch hch
    exact List.eq_of_mem_replicate hch
  · intro g d sp y x hnum hlast
    simp only [renderEntry]
    rw [if_neg (Nat.not_le.mpr hnum), if_neg hlast]

theorem claim8_witness :
    sepStringOf ⟨Direction.LeftToRight, Filling.Spaces 12, 8⟩ =
      String.mk (List.replicate 1 '\t' ++ List.replicate 4 ' ') :=
  (claim8_theorem Direction.LeftToRight 12 8 ("x") 3 (by decide)).1

/-! ### Claim C10 -/

/-- C10: in a row whose in-range cells stop before the final column, the last
in-range cell is still followed by its alignment padding and the separator
(only the final column suppresses them), so the rendered line ends with
padding and separator immediately before its newline. -/
theorem claim10_theorem (g : Grid) (d : Dimensions) (sep : String) (y x0 : Nat)
    (_hy : y < d.num_lines) (hx : x0 + 1 < d.widths.length)
    (hin : renderIndex g.options.direction d.num_lines d.widths.length y x0 <
      g.cells.length)
    (hout : g.cells.length ≤
      renderIndex g.options.direction d.num_lines d.widths.length y (x0 + 1)) :
    ∃ p, renderRow g d sep y =
      p ++ (padString (d.widths.getD x0 0 -
          (g.cells.getD
            (renderIndex g.options.direction d.num_lines d.widths.length y x0)
            default).width) ++ sep ++ String.mk ['\n']) := by
  have hentry : renderEntry g d sep y x0 =
      (g.cells.getD
        (renderIndex g.options.direction d.num_lines d.widths.length y x0)
        default).contents ++
      padString (d.widths.getD x0 0 -
        (g.cells.getD
          (renderIndex g.options.direction d.num_lines d.widths.length y x0)
          default).width) ++ sep := by
    simp only [renderEntry]
    rw [if_neg (Nat.not_le.mpr hin), if_neg (by omega : ¬ x0 = d.widths.length - 1)]
  have hempty : ∀ s ∈ (((List.range (d.widths.length - (x0 + 1))).map
      (fun z => (x0 + 1) + z)).map (renderEntry g d sep y)), s = "" := by
    intro s hs
    obtain ⟨x, hx2, rfl⟩ := List.mem_map.mp hs
    obtain ⟨z, hz, rfl⟩ := List.mem_map.mp hx2
    simp only [renderEntry]
    rw [if_pos (le_trans hout
      (renderIndex_mono g.options.direction d.num_lines d.widths.length y
        (by omega : x0 + 1 ≤ x0 + 1 + z)))]
  have hsplit : List.range d.widths.length =
      List.range (x0 + 1) ++ (List.range (d.widths.length - (x0 + 1))).map
        (fun z => (x0 + 1) + z) := by
    conv_lhs => rw [show d.widths.length = (x0 + 1) + (d.widths.length - (x0 + 1))
      by omega]
    exact List.range_add _ _
  refine ⟨concatAll ((List.range x0).map (renderEntry g d sep y)) ++
    (g.cells.getD
      (renderIndex g.options.direction d.num_lines d.widths.length y x0)
      default).contents, ?_⟩
  unfold renderRow
  rw [hsplit, List.map_append, concatAll_append, concatAll_all_empty _ hempty,
    List.range_succ, List.map_append, concatAll_append, List.map_cons,
    List.map_nil, hentry]
  simp [concatAll, String.append_assoc]

theorem claim10_witness :
    ∃ p, renderRow (gridOf opts7 cellsRagged) ⟨2, [2, 1]⟩ (" ") 1 =
      p ++ (padString ((Dimensions.mk 2 [2, 1]).widths.getD 0 0 -
          ((gridOf opts7 cellsRagged).cells.getD
            (renderIndex (gridOf opts7 cellsRagged).options.direction 2 2 1 0)
            default).width) ++ (" ") ++ String.mk ['\n']) :=
  claim10_theorem (gridOf opts7 cellsRagged) ⟨2, [2, 1]⟩ (" ") 1 0
    (by decide) (by decide) (by decide) (by decide)

/-! ### Arithmetic facts about the source's `div_ceil` -/

theorem divCeilRaw_eq_one (N i : Nat) (hi : 0 < i) (h1 : divCeilRaw N i = 1) :
    N ≤ i := by
  simp only [divCeilRaw, gt_iff_lt, Bool.and_eq_true, decide_eq_true_eq] at h1
  split at h1
  · have h0 : N / i = 0 := by omega
    have := (Nat.div_eq_zero_iff hi).mp h0
    omega
  · rename_i hcond
    have hm : N % i = 0 := by
      rcases Nat.eq_zero_or_pos (N % i) with h | h
      · exact h
      · exact absurd ⟨h, hi⟩ hcond
    have hdm := Nat.div_add_mod N i
    rw [h1, hm, Nat.mul_one, Nat.add_zero] at hdm
    omega

theorem divCeilRaw_eq (n c : Nat) (hc : 0 < c) :
    divCeilRaw n c = (n + c - 1) / c := by
  have hdm := Nat.div_add_mod n c
  have hmc : n % c < c := Nat.mod_lt n hc
  simp only [divCeilRaw, gt_iff_lt, Bool.and_eq_true, decide_eq_true_eq]
  split
  case isTrue h =>
    rw [Nat.add_sub_assoc hc]
    conv_rhs => rw [← hdm]
    rw [Nat.add_assoc, Nat.mul_add_div hc,
      Nat.div_eq_of_lt_le (by omega : 1 * c ≤ n % c + (c - 1))
        (by omega : n % c + (c - 1) < (1 + 1) * c)]
  case isFalse h =>
    have hr : n % c = 0 := by
      rcases Nat.eq_zero_or_pos (n % c) with h0 | h0
      · exact h0
      · exact absurd ⟨h0, hc⟩ h
    rw [Nat.add_sub_assoc hc]
    conv_rhs => rw [← hdm]
    rw [hr, Nat.add_zero, Nat.mul_add_div hc,
      Nat.div_eq_of_lt (by omega : c - 1 < c), Nat.add_zero]

/-! ### The `theoretical_max_num_lines` bound when it evaluates to one line -/

theorem tmnlGo_le (sep_w w N : Nat) (ws : List Nat) :
    ∀ (i so_far : Nat), i + ws.length = N → 0 < ws.length →
      tmnlGo sep_w w N ws i so_far = some 1 →
      ws.sum + so_far + (ws.length - 1) * sep_w ≤ w := by
  induction ws with
  | nil =>
    intro i so hN hlen
    simp at hlen
  | cons a ws ih =>
    intro i so hN hlen htm
    rw [tmnlGo] at htm
    split at htm
    case isTrue hfit =>
      cases ws with
      | nil => simpa using hfit
      | cons b ws2 =>
        have hrec := ih (i + 1) (so + (sep_w + a))
          (by simp only [List.length_cons] at hN ⊢; omega) (by simp) htm
        have hmul : (ws2.length + 1) * sep_w = ws2.length * sep_w + sep_w :=
          Nat.succ_mul _ _
        simp only [List.sum_cons, List.length_cons, Nat.add_sub_cancel] at hrec ⊢
        rw [hmul]
        linarith [hrec]
    case isFalse hfit =>
      exfalso
      by_cases hi : i = 0
      · rw [divCeil?, if_pos hi] at htm
        exact Option.noConfusion htm
      · rw [divCeil?, if_neg hi] at htm
        have h1 : divCeilRaw N i = 1 := Option.some.inj htm
        have hle := divCeilRaw_eq_one N i (Nat.pos_of_ne_zero hi) h1
        simp only [List.length_cons] at hN
        omega

theorem tmnl_one_total (uw : String → Nat) (o : GridOptions) (cs : List Cell)
    (w : Nat) (h2 : 2 ≤ cs.length)
    (htm : theoreticalMaxNumLines uw (gridOf o cs) w = some 1) :
    (cs.map Cell.width).sum + (cs.length - 1) * (o.filling.width uw) ≤ w := by
  unfold theoreticalMaxNumLines at htm
  rw [gridOf_options, gridOf_cells, gridOf_count] at htm
  have hperm : (sortDesc (cs.map Cell.width)).Perm (cs.map Cell.width) :=
    List.perm_insertionSort _ _
  have hlen : (sortDesc (cs.map Cell.width)).length = cs.length := by
    rw [hperm.length_eq, List.length_map]
  have key := tmnlGo_le (o.filling.width uw) w cs.length
    (sortDesc (cs.map Cell.width)) 0 0 (by omega) (by omega) htm
  rw [hperm.sum_eq, hlen] at key
  simpa using key

/-! ### Claim C1, amended theorem -/

/-- C1 (amended): whenever `fit_into_width` returns a layout, the layout's
total rendered width — `sum(widths) + separator_width * (widths.length - 1)`
— is at most the maximum width (the strict inequality of the original claim
holds for layouts found by the descending search, but fails for the one-cell
and one-row early returns, where the total can equal the maximum width). -/
theorem claim1_theorem (uw : String → Nat) (o : GridOptions) (cs : List Cell)
    (w : Nat) (d : Dimensions)
    (hd : fitIntoWidth uw (gridOf o cs) w = some d) :
    d.total_width (o.filling.width uw) ≤ w := by
  have hopt : (gridOf o cs).options = o := gridOf_options o cs
  have hcells : (gridOf o cs).cells = cs := gridOf_cells o cs
  have hcount : (gridOf o cs).cell_count = cs.length := gridOf_count o cs
  rw [fitIntoWidth, widthDimensions] at hd
  by_cases hw : (gridOf o cs).widest_cell_length > w
  · rw [if_pos hw] at hd
    exact absurd hd (by simp)
  · rw [if_neg hw] at hd
    by_cases h0 : (gridOf o cs).cell_count = 0
    · rw [if_pos h0] at hd
      obtain rfl := Option.some.inj hd
      exact Nat.zero_le w
    · rw [if_neg h0] at hd
      by_cases h1 : (gridOf o cs).cell_count = 1
      · rw [if_pos h1] at hd
        obtain rfl := Option.some.inj hd
        have hlen : 0 < cs.length := by omega
        have hmem : cs.getD 0 default ∈ cs := getD_mem_of_lt cs 0 hlen
        have hle : (cs.getD 0 default).width ≤ (gridOf o cs).widest_cell_length :=
          mem_width_le_widest o cs _ hmem
        simp only [Dimensions.total_width, List.isEmpty_cons, Bool.false_eq_true,
          if_false, List.sum_cons, List.sum_nil, List.length_cons,
          List.length_nil, Nat.sub_self, Nat.mul_zero, Nat.add_zero, hcells]
        omega
      · rw [if_neg h1] at hd
        cases htm : theoreticalMaxNumLines uw (gridOf o cs) w with
        | none =>
          rw [htm] at hd
          exact absurd hd (by simp)
        | some t =>
          rw [htm] at hd
          dsimp only at hd
          by_cases ht1 : t = 1
          · rw [if_pos ht1] at hd
            obtain rfl := Option.some.inj hd
            subst ht1
            have h2 : 2 ≤ cs.length := by omega
            have key := tmnl_one_total uw o cs w h2 htm
            have hne : ¬ ((cs.map Cell.width).isEmpty = true) := by
              cases cs with
              | nil => simp at h2
              | cons a l => simp
            simp only [Dimensions.total_width, hcells]
            rw [if_neg hne]
            rw [List.length_map, Nat.mul_comm]
            exact key
          · rw [if_neg ht1] at hd
            refine widthLoop_invariant uw (gridOf o cs) w
              (fun d => d.total_width (o.filling.width uw) ≤ w) ?_ t none
              (fun d h => Option.noConfusion h) d hd
            intro L hg hfit
            have hlen : (candDims (gridOf o cs) (L + 1)).widths.length =
                candNumCols (gridOf o cs) (L + 1) :=
              columnWidths_length _ _ _
            simp only [Dimensions.total_width]
            split
            · exact Nat.zero_le w
            · rw [hlen]
              have hsep : o.filling.width uw *
                  (candNumCols (gridOf o cs) (L + 1) - 1) =
                  candSepWidth uw (gridOf o cs) (L + 1) := by
                rw [candSepWidth, hopt, Nat.mul_comm]
              rw [hsep]
              omega

theorem claim1_witness :
    Dimensions.total_width ⟨3, [4, 3, 6, 6]⟩ (Filling.width uwAscii opts7.filling) ≤ 24 :=
  claim1_theorem uwAscii opts7 cells12 24 ⟨3, [4, 3, 6, 6]⟩ (by decide)

/-! ### Claim C3, amended theorem -/

/-- C3 (amended): for every positive requested column count `c`,
`fit_into_columns(c)` succeeds, its row count is `ceil(N / c)`, it resolves
exactly `c` columns, and every unfilled trailing column (index at least `N`)
has width zero.  (For `c = 0` the request aborts on a division by zero, see
the counterexample.) -/
theorem claim3_theorem (o : GridOptions) (cs : List Cell) (c : Nat)
    (hc : 1 ≤ c) :
    ∃ d, fitIntoColumns (gridOf o cs) c = some d ∧
      d.num_lines = (cs.length + c - 1) / c ∧
      d.widths.length = c ∧
      (∀ j, cs.length ≤ j → j < c → d.widths.getD j 0 = 0) := by
  have hcells : (gridOf o cs).cells = cs := gridOf_cells o cs
  refine ⟨columnWidths (gridOf o cs) (divCeilRaw cs.length c) c, ?_, ?_, ?_, ?_⟩
  · rw [fitIntoColumns, columnsDimensions, hcells, divCeil?,
      if_neg (by omega : ¬ c = 0)]
  · rw [columnWidths_num_lines]
    exact divCeilRaw_eq cs.length c (by omega)
  · exact columnWidths_length _ _ _
  · intro j hjN hjc
    apply columnWidths_untouched
    intro i hi
    rw [hcells] at hi
    cases hdir : (gridOf o cs).options.direction with
    | LeftToRight =>
      show ¬ i % c = j
      have hmod : i % c = i := Nat.mod_eq_of_lt (by omega : i < c)
      omega
    | TopToBottom =>
      show ¬ i / divCeilRaw cs.length c = j
      have hdiv : i / divCeilRaw cs.length c ≤ i := Nat.div_le_self _ _
      omega

theorem claim3_witness :
    ∃ d, fitIntoColumns (gridOf opts7 cellsRagged) 5 = some d ∧
      d.num_lines = (cellsRagged.length + 5 - 1) / 5 ∧
      d.widths.length = 5 ∧
      (∀ j, cellsRagged.length ≤ j → j < 5 → d.widths.getD j 0 = 0) :=
  claim3_theorem opts7 cellsRagged 5 (by decide)

end TermGrid
